import Mathlib

/-!
Formal model of the Checkpoint Manager of the DL_PyTorch repository: a
fully-connected network is saved as a checkpoint holding a ModelDescriptor
(input size, output size, hidden layer sizes) together with a ParameterSet
(named weight and bias arrays), and loaded back by rebuilding the network
from the descriptor and then assigning the stored parameters.

The checkpoint manager's helper module fc_model and the framework
internals it relies on (tensor storage, torch.save and torch.load,
load_state_dict, the module parameter registry) are not available as
source; every definition below marked "Modelled from the spec" follows the
words of spec.md for that code, and is kept consistent with everything the
notebooks observably do (parameter names, weight-shape convention, the
mismatch error, and repeated saves to the same path replacing the stored
artifact).
-/

/-- Modelled from the spec: the architecture metadata needed to reconstruct
a model's structure before loading parameters (spec section 3,
ModelDescriptor). -/
structure ModelDescriptor where
  input_size : Nat
  output_size : Nat
  hidden_layer_sizes : List Nat
deriving DecidableEq

/-- A fully-connected (linear) layer: a weight matrix stored as a list of
rows (one row per output unit, each row as long as the input dimension) and
a bias vector. Numeric values are modelled as rationals. -/
structure LinearLayer where
  weight : List (List ℚ)
  bias : List ℚ
deriving DecidableEq

/-- Modelled from the spec: a layer-qualified parameter name such as
"hidden layer 0 weight" (spec section 3, ParameterSet). -/
inductive ParamName where
  | hiddenWeight (i : Nat)
  | hiddenBias (i : Nat)
  | outputWeight
  | outputBias
deriving DecidableEq

/-- A numeric array: either a matrix (list of rows) or a vector. -/
inductive NumArray where
  | matrix (rows : List (List ℚ))
  | vector (v : List ℚ)
deriving DecidableEq

/-- Modelled from the spec: a ParameterSet is a mapping from layer-qualified
names to numeric arrays, kept here in the order the model lists its
parameters. -/
abbrev ParameterSet := List (ParamName × NumArray)

/-- The shape of a numeric array: `[rows, cols]` for a matrix and `[len]`
for a vector. -/
def NumArray.shape : NumArray → List Nat
  | .matrix rows => [rows.length, (rows.headD []).length]
  | .vector v => [v.length]

/-- Modelled from the spec: a fully-connected network as built by
fc_model.Network — a list of hidden linear layers followed by one output
linear layer, carrying its architecture fields alongside. -/
structure Network where
  input_size : Nat
  output_size : Nat
  hidden_layer_sizes : List Nat
  hidden_layers : List LinearLayer
  output : LinearLayer
deriving DecidableEq

/-- A layer is well-formed for input dimension `inDim` and output dimension
`outDim` when its weight matrix has `outDim` rows of length `inDim` and its
bias has length `outDim`. -/
def layerOk (inDim outDim : Nat) (l : LinearLayer) : Bool :=
  l.weight.length == outDim && l.weight.all (fun row => row.length == inDim) &&
    l.bias.length == outDim

/-- The hidden layers are well-formed for the given size chain: layer `i`
maps dimension `H[i-1]` (or the input size for `i = 0`) to `H[i]`. -/
def layersOk : Nat → List Nat → List LinearLayer → Bool
  | _, [], [] => true
  | prev, h :: hs, l :: ls => layerOk prev h l && layersOk h hs ls
  | _, _, _ => false

/-- Modelled from the spec: a valid model has positive input and output
sizes, a non-empty list of positive hidden layer sizes, and layers whose
shapes match the declared sizes (spec section 3 invariants). -/
def Network.valid (net : Network) : Bool :=
  net.input_size != 0 && net.output_size != 0 &&
    !net.hidden_layer_sizes.isEmpty &&
    net.hidden_layer_sizes.all (fun h => h != 0) &&
    layersOk net.input_size net.hidden_layer_sizes net.hidden_layers &&
    layerOk (net.hidden_layer_sizes.getLastD net.input_size) net.output_size net.output

/-- A zero matrix with `r` rows and `c` columns. -/
def zeros (r c : Nat) : List (List ℚ) := List.replicate r (List.replicate c 0)

/-- Fresh hidden layers for a size chain, zero-initialised. -/
def mkLayers : Nat → List Nat → List LinearLayer
  | _, [] => []
  | prev, h :: hs => ⟨zeros h prev, List.replicate h 0⟩ :: mkLayers h hs

/-- Modelled from the spec: constructing a new model from descriptor fields,
as fc_model.Network(input_size, output_size, hidden_layers) does — the first
hidden layer maps input_size to the first hidden size, each further hidden
layer maps the previous hidden size to the next, and the output layer maps
the last hidden size to output_size. -/
def Network.build (n m : Nat) (H : List Nat) : Network :=
  { input_size := n, output_size := m, hidden_layer_sizes := H,
    hidden_layers := mkLayers n H,
    output := ⟨zeros m (H.getLastD n), List.replicate m 0⟩ }

/-- Dot product of two vectors. -/
def dot (xs ys : List ℚ) : ℚ := (List.zipWith (fun a b => a * b) xs ys).sum

/-- Affine action of a linear layer on an input vector. -/
def LinearLayer.apply (l : LinearLayer) (x : List ℚ) : List ℚ :=
  List.zipWith (fun row b => dot row x + b) l.weight l.bias

/-- Componentwise rectified linear unit. -/
def reluVec (x : List ℚ) : List ℚ := x.map (fun a => max a 0)

/-- Modelled from the spec: the forward computation of the fully-connected
network — each hidden layer applies its affine map followed by the
nonlinearity, and the output layer applies its affine map. -/
def Network.forward (net : Network) (x : List ℚ) : List ℚ :=
  net.output.apply (net.hidden_layers.foldl (fun v l => reluVec (l.apply v)) x)

/-- The parameter entries of the hidden layers, numbering layers from `i`. -/
def hiddenEntries : Nat → List LinearLayer → ParameterSet
  | _, [] => []
  | i, l :: ls =>
    (.hiddenWeight i, .matrix l.weight) :: (.hiddenBias i, .vector l.bias) ::
      hiddenEntries (i + 1) ls

/-- Modelled from the spec: model.state_dict() — the ParameterSet listing
every parameter of the model under its layer-qualified name, hidden layers
first (in forward order), then the output layer. -/
def Network.state_dict (net : Network) : ParameterSet :=
  hiddenEntries 0 net.hidden_layers ++
    [(.outputWeight, .matrix net.output.weight),
     (.outputBias, .vector net.output.bias)]

/-- The name-and-shape view of a ParameterSet. -/
def shapesOf (ps : ParameterSet) : List (ParamName × List Nat) :=
  ps.map (fun e => (e.1, e.2.shape))

/-- Extract a matrix from a numeric array, with a fallback. -/
def entryMatrix : NumArray → List (List ℚ) → List (List ℚ)
  | .matrix rows, _ => rows
  | _, dflt => dflt

/-- Extract a vector from a numeric array, with a fallback. -/
def entryVector : NumArray → List ℚ → List ℚ
  | .vector v, _ => v
  | _, dflt => dflt

/-- Overwrite each hidden layer's weight and bias with the next two entries
of the ParameterSet. -/
def fillLayers : List LinearLayer → ParameterSet → List LinearLayer
  | [], _ => []
  | l :: ls, (_, a) :: (_, b) :: rest =>
    ⟨entryMatrix a l.weight, entryVector b l.bias⟩ :: fillLayers ls rest
  | l :: ls, _ => l :: ls

/-- Assign each entry of a ParameterSet to the corresponding layer's
parameters: the hidden layers consume two entries each in order, then the
output layer takes its weight and bias from the remaining two entries. -/
def assignParams (net : Network) (ps : ParameterSet) : Network :=
  let rest := ps.drop (2 * net.hidden_layers.length)
  let output' : LinearLayer :=
    match rest with
    | (_, a) :: (_, b) :: _ =>
      ⟨entryMatrix a net.output.weight, entryVector b net.output.bias⟩
    | _ => net.output
  { net with hidden_layers := fillLayers net.hidden_layers ps, output := output' }

/-- Modelled from the spec: the two error conditions of the load path —
StructureMismatch when parameter shapes disagree, CorruptArtifact when the
source cannot be parsed as a Checkpoint (spec section 7). -/
inductive LoadError where
  | structureMismatch
  | corruptArtifact
deriving DecidableEq

/-- Modelled from the spec: model.load_state_dict(ps) — fails with
StructureMismatch when the model's declared parameter names and shapes do
not match those stored in the ParameterSet, and otherwise assigns each
stored entry to the corresponding parameter. -/
def Network.load_state_dict (net : Network) (ps : ParameterSet) :
    Except LoadError Network :=
  if shapesOf net.state_dict = shapesOf ps then .ok (assignParams net ps)
  else .error .structureMismatch

/-- Modelled from the spec: a Checkpoint pairs the ModelDescriptor with the
ParameterSet (spec section 3). -/
structure Checkpoint where
  descriptor : ModelDescriptor
  params : ParameterSet
deriving DecidableEq

/-- The serialized form of a checkpoint: a flat sequence of integers. -/
abbrev Blob := List Int

/-- Encode a natural number. -/
def encNat (k : Nat) : Blob := [(k : Int)]

/-- Decode a natural number, returning the remaining input. -/
def decNat : Blob → Option (Nat × Blob)
  | i :: rest => if 0 ≤ i then some (i.toNat, rest) else none
  | [] => none

/-- Encode a rational as numerator then denominator. -/
def encRat (q : ℚ) : Blob := [q.num, (q.den : Int)]

/-- Decode a rational from a numerator and a positive denominator. -/
def decRat : Blob → Option (ℚ × Blob)
  | n :: d :: rest => if 0 < d then some (mkRat n d.toNat, rest) else none
  | _ => none

/-- Concatenation of the encodings of the elements of a list. -/
def encListBody (enc : α → Blob) : List α → Blob
  | [] => []
  | a :: as => enc a ++ encListBody enc as

/-- Encode a list as its length followed by its encoded elements. -/
def encList (enc : α → Blob) (xs : List α) : Blob :=
  (xs.length : Int) :: encListBody enc xs

/-- Decode exactly `k` elements. -/
def decListAux (dec : Blob → Option (α × Blob)) : Nat → Blob → Option (List α × Blob)
  | 0, b => some ([], b)
  | k + 1, b =>
    match dec b with
    | none => none
    | some (a, b') =>
      match decListAux dec k b' with
      | none => none
      | some (as, b'') => some (a :: as, b'')

/-- Decode a length-prefixed list. -/
def decList (dec : Blob → Option (α × Blob)) : Blob → Option (List α × Blob)
  | i :: rest => if 0 ≤ i then decListAux dec i.toNat rest else none
  | [] => none

/-- Encode a parameter name as a tag, plus the layer index for hidden
layers. -/
def encParamName : ParamName → Blob
  | .hiddenWeight i => [0, (i : Int)]
  | .hiddenBias i => [1, (i : Int)]
  | .outputWeight => [2]
  | .outputBias => [3]

/-- Decode a parameter name. -/
def decParamName : Blob → Option (ParamName × Blob)
  | 0 :: rest =>
    match decNat rest with
    | some (i, b') => some (.hiddenWeight i, b')
    | none => none
  | 1 :: rest =>
    match decNat rest with
    | some (i, b') => some (.hiddenBias i, b')
    | none => none
  | 2 :: rest => some (.outputWeight, rest)
  | 3 :: rest => some (.outputBias, rest)
  | _ => none

/-- Encode a numeric array with a matrix/vector tag. -/
def encNumArray : NumArray → Blob
  | .matrix rows => 0 :: encList (encList encRat) rows
  | .vector v => 1 :: encList encRat v

/-- Decode a numeric array. -/
def decNumArray : Blob → Option (NumArray × Blob)
  | 0 :: rest =>
    match decList (decList decRat) rest with
    | some (rows, b') => some (.matrix rows, b')
    | none => none
  | 1 :: rest =>
    match decList decRat rest with
    | some (v, b') => some (.vector v, b')
    | none => none
  | _ => none

/-- Encode one ParameterSet entry. -/
def encEntry (e : ParamName × NumArray) : Blob :=
  encParamName e.1 ++ encNumArray e.2

/-- Decode one ParameterSet entry. -/
def decEntry (b : Blob) : Option ((ParamName × NumArray) × Blob) :=
  match decParamName b with
  | none => none
  | some (n, b') =>
    match decNumArray b' with
    | none => none
    | some (a, b'') => some ((n, a), b'')

/-- Encode the three descriptor fields. -/
def encDescriptor (d : ModelDescriptor) : Blob :=
  encNat d.input_size ++ encNat d.output_size ++ encList encNat d.hidden_layer_sizes

/-- Decode the three descriptor fields. -/
def decDescriptor (b : Blob) : Option (ModelDescriptor × Blob) :=
  match decNat b with
  | none => none
  | some (n, b₁) =>
    match decNat b₁ with
    | none => none
    | some (m, b₂) =>
      match decList decNat b₂ with
      | none => none
      | some (hs, b₃) => some (⟨n, m, hs⟩, b₃)

/-- Modelled from the spec: the self-describing serialized form of a
Checkpoint — descriptor fields first, then the ParameterSet (spec section
6). -/
def serialize (c : Checkpoint) : Blob :=
  encDescriptor c.descriptor ++ encList encEntry c.params

/-- Decode a checkpoint, returning the remaining input. -/
def decCheckpoint (b : Blob) : Option (Checkpoint × Blob) :=
  match decDescriptor b with
  | none => none
  | some (d, b₁) =>
    match decList decEntry b₁ with
    | none => none
    | some (ps, b₂) => some (⟨d, ps⟩, b₂)

/-- Parse a blob as a whole Checkpoint; any leftover or malformed input is
a parse failure. -/
def deserialize (b : Blob) : Option Checkpoint :=
  match decCheckpoint b with
  | some (c, []) => some c
  | _ => none

/-- Modelled from the spec: save — build the checkpoint dictionary from the
model's architecture fields and its state_dict, and serialize it (the
`checkpoint` cell of the Part 6 notebook). -/
def save (net : Network) : Blob :=
  serialize ⟨⟨net.input_size, net.output_size, net.hidden_layer_sizes⟩, net.state_dict⟩

/-- Modelled from the spec: load_checkpoint — deserialize the checkpoint,
construct a new model from the stored descriptor fields, then load the
stored ParameterSet into it; an unparsable source is a CorruptArtifact. -/
def load (b : Blob) : Except LoadError Network :=
  match deserialize b with
  | none => .error .corruptArtifact
  | some c =>
    (Network.build c.descriptor.input_size c.descriptor.output_size
        c.descriptor.hidden_layer_sizes).load_state_dict c.params

/-- Persistent storage: destination identifiers mapped to written blobs. -/
abbrev Store := List (String × Blob)

/-- The operations of the checkpoint manager acting on storage. -/
inductive Op where
  | saveOp (dest : String) (net : Network)
  | loadOp (src : String)

/-- Modelled from the spec: a save performs one synchronous write of the
serialized checkpoint to its destination (spec section 5), and a save to an
already-written destination replaces the stored blob — the notebook saves
to the same path more than once and the later load observes the last
write; a load does not modify storage. The newest entry for a destination
shadows older ones under lookup. -/
def execOp (s : Store) : Op → Store
  | .saveOp d net => (d, save net) :: s
  | .loadOp _ => s

/-- Run a sequence of operations on storage. -/
def execOps (s : Store) (ops : List Op) : Store := ops.foldl execOp s

/-- State-passing view of a save call: it returns the model it was given
together with the updated storage. -/
def saveTo (net : Network) (d : String) (s : Store) : Network × Store :=
  (net, execOp s (.saveOp d net))

/-- The canonical name-and-shape list determined by descriptor fields
alone, numbering hidden layers from `i` with incoming dimension `prev`. -/
def hiddenShapeEntries : Nat → Nat → List Nat → List (ParamName × List Nat)
  | _, _, [] => []
  | i, prev, h :: hs =>
    (.hiddenWeight i, [h, prev]) :: (.hiddenBias i, [h]) ::
      hiddenShapeEntries (i + 1) h hs

/-- The canonical name-and-shape list of a whole architecture. -/
def descShapes (n m : Nat) (H : List Nat) : List (ParamName × List Nat) :=
  hiddenShapeEntries 0 n H ++
    [(.outputWeight, [m, H.getLastD n]), (.outputBias, [m])]

/-- The weight-matrix shapes (rows, cols) occurring in a ParameterSet, in
order. -/
def weightShapes (ps : ParameterSet) : List (Nat × Nat) :=
  ps.filterMap (fun e =>
    match e.2 with
    | .matrix rows => some (rows.length, (rows.headD []).length)
    | .vector _ => none)

/-- The (rows, cols) shapes of the hidden-layer weights of a size chain. -/
def hiddenWS : Nat → List Nat → List (Nat × Nat)
  | _, [] => []
  | prev, h :: hs => (h, prev) :: hiddenWS h hs

/-- Adjacent weight matrices chain: each matrix's column count equals the
previous matrix's row count. -/
def adjacentOk : List (Nat × Nat) → Bool
  | [] => true
  | [_] => true
  | (o₁, _) :: (o₂, i₂) :: rest => i₂ == o₁ && adjacentOk ((o₂, i₂) :: rest)

/-- The dimension-chain invariant of a list of weight shapes: adjacent
shapes chain, the first matrix has `n` columns, and the last matrix has `m`
rows. -/
def chainOk (n m : Nat) (ws : List (Nat × Nat)) : Bool :=
  adjacentOk ws && ((ws.headD (m, n)).2 == n) && ((ws.getLastD (m, n)).1 == m)

/-- A small concrete valid model used as a witness input. -/
def netEx : Network :=
  { input_size := 2, output_size := 1, hidden_layer_sizes := [2],
    hidden_layers := [⟨[[1, 2], [3, 4]], [5, 6]⟩],
    output := ⟨[[7, 8]], [9]⟩ }

/-- The example model of the spec's section 8 example. -/
def net784 : Network := Network.build 784 10 [512, 256, 128]

theorem decNat_enc (k : Nat) (r : Blob) : decNat (encNat k ++ r) = some (k, r) := by
  simp [encNat, decNat]

theorem decRat_enc (q : ℚ) (r : Blob) : decRat (encRat q ++ r) = some (q, r) := by
  simp [encRat, decRat, Int.natCast_pos, q.den_pos, Rat.mkRat_self]

theorem decListAux_enc {α : Type} (dec : Blob → Option (α × Blob)) (enc : α → Blob)
    (h : ∀ a r, dec (enc a ++ r) = some (a, r)) :
    ∀ (xs : List α) (r : Blob),
      decListAux dec xs.length (encListBody enc xs ++ r) = some (xs, r) := by
  intro xs
  induction xs with
  | nil => intro r; simp [decListAux, encListBody]
  | cons a as ih =>
    intro r
    simp [decListAux, encListBody, List.append_assoc, h, ih]

theorem decList_enc {α : Type} (dec : Blob → Option (α × Blob)) (enc : α → Blob)
    (h : ∀ a r, dec (enc a ++ r) = some (a, r)) (xs : List α) (r : Blob) :
    decList dec (encList enc xs ++ r) = some (xs, r) := by
  simp [encList, decList, decListAux_enc dec enc h]

theorem decParamName_enc (n : ParamName) (r : Blob) :
    decParamName (encParamName n ++ r) = some (n, r) := by
  cases n <;> simp [encParamName, decParamName, decNat]

theorem decNumArray_enc (a : NumArray) (r : Blob) :
    decNumArray (encNumArray a ++ r) = some (a, r) := by
  cases a with
  | matrix rows =>
    simp [encNumArray, decNumArray,
      decList_enc (decList decRat) (encList encRat)
        (fun row r' => decList_enc decRat encRat decRat_enc row r')]
  | vector v =>
    simp [encNumArray, decNumArray, decList_enc decRat encRat decRat_enc]

theorem decEntry_enc (e : ParamName × NumArray) (r : Blob) :
    decEntry (encEntry e ++ r) = some (e, r) := by
  simp [encEntry, decEntry, List.append_assoc, decParamName_enc, decNumArray_enc]

theorem decDescriptor_enc (d : ModelDescriptor) (r : Blob) :
    decDescriptor (encDescriptor d ++ r) = some (d, r) := by
  simp [encDescriptor, decDescriptor, List.append_assoc, decNat_enc,
    decList_enc decNat encNat decNat_enc]

theorem decCheckpoint_enc (c : Checkpoint) (r : Blob) :
    decCheckpoint (serialize c ++ r) = some (c, r) := by
  simp [serialize, decCheckpoint, List.append_assoc, decDescriptor_enc,
    decList_enc decEntry encEntry decEntry_enc]

theorem deserialize_serialize (c : Checkpoint) : deserialize (serialize c) = some c := by
  have h := decCheckpoint_enc c []
  rw [List.append_nil] at h
  simp [deserialize, h]

theorem getLastD_cons_eq {α : Type} (a : α) (l : List α) (d : α) :
    List.getLastD (a :: l) d = List.getLastD l a := by
  cases l <;> simp [List.getLastD]

theorem mkLayers_length : ∀ (H : List Nat) (prev : Nat), (mkLayers prev H).length = H.length := by
  intro H
  induction H with
  | nil => intro prev; simp [mkLayers]
  | cons h hs ih => intro prev; simp [mkLayers, ih]

theorem layersOk_length :
    ∀ (H : List Nat) (ls : List LinearLayer) (prev : Nat),
      layersOk prev H ls = true → ls.length = H.length := by
  intro H
  induction H with
  | nil =>
    intro ls prev hok
    cases ls with
    | nil => rfl
    | cons l ls' => simp [layersOk] at hok
  | cons h hs ih =>
    intro ls prev hok
    cases ls with
    | nil => simp [layersOk] at hok
    | cons l ls' =>
      simp only [layersOk, Bool.and_eq_true] at hok
      simp [ih ls' h hok.2]

theorem hiddenEntries_length :
    ∀ (ls : List LinearLayer) (i : Nat), (hiddenEntries i ls).length = 2 * ls.length := by
  intro ls
  induction ls with
  | nil => intro i; simp [hiddenEntries]
  | cons l ls' ih =>
    intro i
    simp [hiddenEntries, ih]
    omega

theorem shape_matrix_of_layerOk (inDim outDim : Nat) (l : LinearLayer)
    (h : layerOk inDim outDim l = true) (hpos : outDim ≠ 0) :
    NumArray.shape (.matrix l.weight) = [outDim, inDim] := by
  simp only [layerOk, Bool.and_eq_true, beq_iff_eq, List.all_eq_true] at h
  obtain ⟨⟨hw, hall⟩, _⟩ := h
  rcases hlw : l.weight with _ | ⟨r, rs⟩
  · rw [hlw] at hw
    simp at hw
    exact absurd hw.symm hpos
  · rw [hlw] at hw hall
    have hr : r.length = inDim := by
      simpa using hall r (by simp)
    simp [NumArray.shape, hw, hr]

theorem bias_length_of_layerOk (inDim outDim : Nat) (l : LinearLayer)
    (h : layerOk inDim outDim l = true) : l.bias.length = outDim := by
  simp only [layerOk, Bool.and_eq_true, beq_iff_eq, List.all_eq_true] at h
  exact h.2

theorem shapesOf_append (ps qs : ParameterSet) :
    shapesOf (ps ++ qs) = shapesOf ps ++ shapesOf qs :=
  List.map_append _ ps qs

theorem shapesOf_hiddenEntries :
    ∀ (H : List Nat) (ls : List LinearLayer) (i prev : Nat),
      layersOk prev H ls = true → H.all (fun h => h != 0) = true →
      shapesOf (hiddenEntries i ls) = hiddenShapeEntries i prev H := by
  intro H
  induction H with
  | nil =>
    intro ls i prev hok _
    cases ls with
    | nil => simp [hiddenEntries, hiddenShapeEntries, shapesOf]
    | cons l ls' => simp [layersOk] at hok
  | cons h hs ih =>
    intro ls i prev hok hpos
    cases ls with
    | nil => simp [layersOk] at hok
    | cons l ls' =>
      simp only [layersOk, Bool.and_eq_true] at hok
      rw [List.all_cons, Bool.and_eq_true] at hpos
      have hpos1 : h ≠ 0 := by simpa using hpos.1
      have hmat := shape_matrix_of_layerOk prev h l hok.1 hpos1
      have hvec : NumArray.shape (.vector l.bias) = [h] := by
        simp [NumArray.shape, bias_length_of_layerOk prev h l hok.1]
      show (ParamName.hiddenWeight i, NumArray.shape (.matrix l.weight)) ::
          (ParamName.hiddenBias i, NumArray.shape (.vector l.bias)) ::
          shapesOf (hiddenEntries (i + 1) ls') =
        (ParamName.hiddenWeight i, [h, prev]) :: (ParamName.hiddenBias i, [h]) ::
          hiddenShapeEntries (i + 1) h hs
      rw [hmat, hvec, ih ls' (i + 1) h hok.2 hpos.2]

theorem shapesOf_state_dict (net : Network) (hv : net.valid = true) :
    shapesOf net.state_dict =
      descShapes net.input_size net.output_size net.hidden_layer_sizes := by
  simp only [Network.valid, Bool.and_eq_true] at hv
  obtain ⟨⟨⟨⟨⟨_, h2⟩, _⟩, h4⟩, h5⟩, h6⟩ := hv
  have hm : net.output_size ≠ 0 := by simpa using h2
  have hmat := shape_matrix_of_layerOk _ _ _ h6 hm
  have hvec : NumArray.shape (.vector net.output.bias) = [net.output_size] := by
    simp [NumArray.shape, bias_length_of_layerOk _ _ _ h6]
  have hhid := shapesOf_hiddenEntries net.hidden_layer_sizes net.hidden_layers
    0 net.input_size h5 h4
  calc shapesOf net.state_dict
      = shapesOf (hiddenEntries 0 net.hidden_layers) ++
          shapesOf [(.outputWeight, .matrix net.output.weight),
            (.outputBias, .vector net.output.bias)] :=
        shapesOf_append _ _
    _ = hiddenShapeEntries 0 net.input_size net.hidden_layer_sizes ++
          [(ParamName.outputWeight,
              [net.output_size, net.hidden_layer_sizes.getLastD net.input_size]),
            (ParamName.outputBias, [net.output_size])] := by
        rw [hhid]
        show _ ++ [(ParamName.outputWeight, NumArray.shape (.matrix net.output.weight)),
          (ParamName.outputBias, NumArray.shape (.vector net.output.bias))] = _
        rw [hmat, hvec]
    _ = descShapes net.input_size net.output_size net.hidden_layer_sizes := rfl

theorem layersOk_mkLayers : ∀ (H : List Nat) (prev : Nat),
    layersOk prev H (mkLayers prev H) = true := by
  intro H
  induction H with
  | nil => intro prev; simp [mkLayers, layersOk]
  | cons h hs ih =>
    intro prev
    simp [mkLayers, layersOk, layerOk, zeros, List.mem_replicate, ih]

theorem build_valid (n m : Nat) (H : List Nat) (hn : n ≠ 0) (hm : m ≠ 0)
    (hH : H ≠ []) (hpos : H.all (fun h => h != 0) = true) :
    (Network.build n m H).valid = true := by
  cases H with
  | nil => exact absurd rfl hH
  | cons h hs =>
    simp [Network.build, Network.valid, layersOk_mkLayers, layerOk, zeros,
      List.mem_replicate, hn, hm, hpos]

theorem fillLayers_hiddenEntries :
    ∀ (ls ms : List LinearLayer) (i : Nat) (tail : ParameterSet),
      ls.length = ms.length →
      fillLayers ls (hiddenEntries i ms ++ tail) = ms := by
  intro ls
  induction ls with
  | nil =>
    intro ms i tail hlen
    cases ms with
    | nil => simp [fillLayers]
    | cons m ms' => simp at hlen
  | cons l ls' ih =>
    intro ms i tail hlen
    cases ms with
    | nil => simp at hlen
    | cons m ms' =>
      simp only [List.length_cons, Nat.add_right_cancel_iff] at hlen
      show LinearLayer.mk (entryMatrix (.matrix m.weight) l.weight)
          (entryVector (.vector m.bias) l.bias) ::
          fillLayers ls' (hiddenEntries (i + 1) ms' ++ tail) = m :: ms'
      rw [ih ms' (i + 1) tail hlen]
      rfl

theorem drop_hiddenEntries (ms : List LinearLayer) (i : Nat) (tail : ParameterSet) :
    (hiddenEntries i ms ++ tail).drop (2 * ms.length) = tail := by
  have h := hiddenEntries_length ms i
  calc (hiddenEntries i ms ++ tail).drop (2 * ms.length)
      = (hiddenEntries i ms ++ tail).drop (hiddenEntries i ms).length := by rw [h]
    _ = tail := by simp

theorem assignParams_state_dict (net' net : Network)
    (hlen : net'.hidden_layers.length = net.hidden_layers.length) :
    assignParams net' net.state_dict =
      { net' with hidden_layers := net.hidden_layers, output := net.output } := by
  have hdrop : net.state_dict.drop (2 * net'.hidden_layers.length) =
      [(.outputWeight, .matrix net.output.weight),
       (.outputBias, .vector net.output.bias)] := by
    rw [hlen]
    exact drop_hiddenEntries net.hidden_layers 0 _
  have hfill : fillLayers net'.hidden_layers net.state_dict = net.hidden_layers :=
    fillLayers_hiddenEntries net'.hidden_layers net.hidden_layers 0 _ hlen
  simp only [assignParams, hdrop, hfill]
  rfl

theorem valid_parts (net : Network) (hv : net.valid = true) :
    net.input_size ≠ 0 ∧ net.output_size ≠ 0 ∧ net.hidden_layer_sizes ≠ [] ∧
      net.hidden_layer_sizes.all (fun h => h != 0) = true ∧
      layersOk net.input_size net.hidden_layer_sizes net.hidden_layers = true := by
  simp only [Network.valid, Bool.and_eq_true] at hv
  obtain ⟨⟨⟨⟨⟨h1, h2⟩, h3⟩, h4⟩, h5⟩, _⟩ := hv
  refine ⟨by simpa using h1, by simpa using h2, ?_, h4, h5⟩
  intro hnil
  rw [hnil] at h3
  simp at h3

theorem load_save (net : Network) (hv : net.valid = true) :
    load (save net) = .ok net := by
  obtain ⟨hn, hm, hH, hpos, hok⟩ := valid_parts net hv
  have hbuildv :=
    build_valid net.input_size net.output_size net.hidden_layer_sizes hn hm hH hpos
  have hdes : deserialize (save net) =
      some ⟨⟨net.input_size, net.output_size, net.hidden_layer_sizes⟩,
        net.state_dict⟩ :=
    deserialize_serialize _
  have hshape : shapesOf (Network.build net.input_size net.output_size
      net.hidden_layer_sizes).state_dict = shapesOf net.state_dict := by
    rw [shapesOf_state_dict _ hbuildv, shapesOf_state_dict net hv]
    rfl
  have hlen : (Network.build net.input_size net.output_size
      net.hidden_layer_sizes).hidden_layers.length = net.hidden_layers.length := by
    show (mkLayers net.input_size net.hidden_layer_sizes).length = _
    rw [mkLayers_length,
      layersOk_length net.hidden_layer_sizes net.hidden_layers net.input_size hok]
  have hassign := assignParams_state_dict
    (Network.build net.input_size net.output_size net.hidden_layer_sizes) net hlen
  simp only [load, hdes]
  simp only [Network.load_state_dict]
  rw [if_pos hshape, hassign]
  rfl

theorem mkLayers_shapes_inj :
    ∀ (Hb H : List Nat) (i prev : Nat) (s s' : List Nat)
      (t t' : List (ParamName × List Nat)),
      shapesOf (hiddenEntries i (mkLayers prev Hb)) ++ (ParamName.outputWeight, s) :: t =
        hiddenShapeEntries i prev H ++ (ParamName.outputWeight, s') :: t' →
      Hb = H := by
  intro Hb
  induction Hb with
  | nil =>
    intro H i prev s s' t t' heq
    cases H with
    | nil => rfl
    | cons h hs =>
      simp [mkLayers, hiddenEntries, shapesOf, hiddenShapeEntries] at heq
  | cons hb hbs ih =>
    intro H i prev s s' t t' heq
    cases H with
    | nil =>
      simp [mkLayers, hiddenEntries, shapesOf, hiddenShapeEntries] at heq
    | cons h hs =>
      rw [show shapesOf (hiddenEntries i (mkLayers prev (hb :: hbs))) =
          (ParamName.hiddenWeight i, NumArray.shape (.matrix (zeros hb prev))) ::
            (ParamName.hiddenBias i,
              NumArray.shape (.vector (List.replicate hb (0 : ℚ)))) ::
            shapesOf (hiddenEntries (i + 1) (mkLayers hb hbs)) from rfl] at heq
      rw [show hiddenShapeEntries i prev (h :: hs) =
          (ParamName.hiddenWeight i, [h, prev]) :: (ParamName.hiddenBias i, [h]) ::
            hiddenShapeEntries (i + 1) h hs from rfl] at heq
      simp only [List.cons_append, List.cons.injEq, Prod.mk.injEq] at heq
      obtain ⟨⟨_, hsh⟩, ⟨_, _⟩, htail⟩ := heq
      have hb_h : hb = h := by
        simp [NumArray.shape, zeros] at hsh
        exact hsh.1
      subst hb_h
      rw [ih hs (i + 1) hb s s' t t' htail]

theorem load_state_dict_mismatch (net : Network) (hv : net.valid = true)
    (Hb : List Nat) (hne : Hb ≠ net.hidden_layer_sizes) :
    (Network.build net.input_size net.output_size Hb).load_state_dict
      net.state_dict = .error .structureMismatch := by
  have hexp : shapesOf (Network.build net.input_size net.output_size Hb).state_dict =
      shapesOf (hiddenEntries 0 (mkLayers net.input_size Hb)) ++
        (ParamName.outputWeight,
          NumArray.shape (.matrix (zeros net.output_size
            (Hb.getLastD net.input_size)))) ::
        [(ParamName.outputBias,
          NumArray.shape (.vector (List.replicate net.output_size (0 : ℚ))))] := by
    show shapesOf (hiddenEntries 0 (mkLayers net.input_size Hb) ++
      [(.outputWeight, .matrix (zeros net.output_size (Hb.getLastD net.input_size))),
       (.outputBias, .vector (List.replicate net.output_size 0))]) = _
    rw [shapesOf_append]
    rfl
  have hcond : shapesOf (Network.build net.input_size net.output_size
      Hb).state_dict ≠ shapesOf net.state_dict := by
    intro hcontra
    apply hne
    rw [shapesOf_state_dict net hv] at hcontra
    rw [hexp] at hcontra
    simp only [descShapes] at hcontra
    exact mkLayers_shapes_inj Hb net.hidden_layer_sizes 0 net.input_size _ _ _ _ hcontra
  simp only [Network.load_state_dict]
  rw [if_neg hcond]

theorem getLastD_concat {α : Type} : ∀ (l : List α) (a d : α), (l ++ [a]).getLastD d = a := by
  intro l
  induction l with
  | nil => intro a d; rfl
  | cons x xs ih => intro a d; rw [List.cons_append, getLastD_cons_eq, ih]

theorem weightShapes_append (ps qs : ParameterSet) :
    weightShapes (ps ++ qs) = weightShapes ps ++ weightShapes qs :=
  List.filterMap_append ps qs _

theorem weightShapes_hiddenEntries :
    ∀ (H : List Nat) (ls : List LinearLayer) (i prev : Nat),
      layersOk prev H ls = true → H.all (fun h => h != 0) = true →
      weightShapes (hiddenEntries i ls) = hiddenWS prev H := by
  intro H
  induction H with
  | nil =>
    intro ls i prev hok _
    cases ls with
    | nil => rfl
    | cons l ls' => simp [layersOk] at hok
  | cons h hs ih =>
    intro ls i prev hok hpos
    cases ls with
    | nil => simp [layersOk] at hok
    | cons l ls' =>
      simp only [layersOk, Bool.and_eq_true] at hok
      rw [List.all_cons, Bool.and_eq_true] at hpos
      have hpos1 : h ≠ 0 := by simpa using hpos.1
      have hmat : l.weight.length = h ∧ (l.weight.headD []).length = prev := by
        simpa [NumArray.shape] using shape_matrix_of_layerOk prev h l hok.1 hpos1
      show (l.weight.length, (l.weight.headD []).length) ::
          weightShapes (hiddenEntries (i + 1) ls') = (h, prev) :: hiddenWS h hs
      rw [hmat.1, hmat.2, ih ls' (i + 1) h hok.2 hpos.2]

theorem weightShapes_state_dict (net : Network) (hv : net.valid = true) :
    weightShapes net.state_dict =
      hiddenWS net.input_size net.hidden_layer_sizes ++
        [(net.output_size, net.hidden_layer_sizes.getLastD net.input_size)] := by
  simp only [Network.valid, Bool.and_eq_true] at hv
  obtain ⟨⟨⟨⟨⟨_, h2⟩, _⟩, h4⟩, h5⟩, h6⟩ := hv
  have hm : net.output_size ≠ 0 := by simpa using h2
  have hout : net.output.weight.length = net.output_size ∧
      (net.output.weight.headD []).length =
        net.hidden_layer_sizes.getLastD net.input_size := by
    simpa [NumArray.shape] using shape_matrix_of_layerOk _ _ _ h6 hm
  calc weightShapes net.state_dict
      = weightShapes (hiddenEntries 0 net.hidden_layers) ++
          weightShapes [(.outputWeight, .matrix net.output.weight),
            (.outputBias, .vector net.output.bias)] :=
        weightShapes_append _ _
    _ = hiddenWS net.input_size net.hidden_layer_sizes ++
          [(net.output_size, net.hidden_layer_sizes.getLastD net.input_size)] := by
        rw [weightShapes_hiddenEntries net.hidden_layer_sizes net.hidden_layers
          0 net.input_size h5 h4]
        show _ ++ [(net.output.weight.length, (net.output.weight.headD []).length)] = _
        rw [hout.1, hout.2]

theorem adjacentOk_hiddenWS :
    ∀ (hs : List Nat) (p m : Nat),
      adjacentOk (hiddenWS p hs ++ [(m, hs.getLastD p)]) = true := by
  intro hs
  induction hs with
  | nil => intro p m; rfl
  | cons h t ih =>
    intro p m
    rw [getLastD_cons_eq]
    cases t with
    | nil => simp [hiddenWS, adjacentOk, List.getLastD]
    | cons h₂ t₂ =>
      have hrec := ih h m
      simp only [hiddenWS, List.cons_append] at hrec ⊢
      simp only [adjacentOk, beq_self_eq_true, Bool.true_and]
      exact hrec

theorem chainOk_hiddenWS (H : List Nat) (n m : Nat) :
    chainOk n m (hiddenWS n H ++ [(m, H.getLastD n)]) = true := by
  have h1 := adjacentOk_hiddenWS H n m
  have h2 : ((hiddenWS n H ++ [(m, H.getLastD n)]).headD (m, n)).2 = n := by
    cases H <;> simp [hiddenWS, List.getLastD]
  have h3 := getLastD_concat (hiddenWS n H) (m, H.getLastD n) (m, n)
  simp only [chainOk, Bool.and_eq_true, beq_iff_eq]
  refine ⟨⟨h1, h2⟩, ?_⟩
  rw [h3]

/-- C1: round-trip — for every valid model, loading the saved checkpoint
produces a model with the same architecture fields, the same parameter
values, and the same forward computation on every input. -/
theorem claim_C1 (net : Network) (hv : net.valid = true) :
    ∃ net2, load (save net) = .ok net2 ∧
      net2.input_size = net.input_size ∧ net2.output_size = net.output_size ∧
      net2.hidden_layer_sizes = net.hidden_layer_sizes ∧
      net2.state_dict = net.state_dict ∧
      ∀ x, net2.forward x = net.forward x :=
  ⟨net, load_save net hv, rfl, rfl, rfl, rfl, fun _ => rfl⟩

/-- Witness for C1 at the concrete valid model netEx. -/
theorem claim_C1_witness :
    netEx.valid = true ∧
      ∃ net2, load (save netEx) = .ok net2 ∧
        net2.input_size = netEx.input_size ∧ net2.output_size = netEx.output_size ∧
        net2.hidden_layer_sizes = netEx.hidden_layer_sizes ∧
        net2.state_dict = netEx.state_dict ∧
        ∀ x, net2.forward x = netEx.forward x :=
  ⟨by decide, claim_C1 netEx (by decide)⟩

/-- C2: shape-mismatch detection — loading the ParameterSet saved from a
valid model into a model built with any different hidden-layer-size
sequence, bypassing the descriptor-driven reconstruction, raises
StructureMismatch. -/
theorem claim_C2 (net : Network) (hv : net.valid = true) (Hb : List Nat)
    (hne : Hb ≠ net.hidden_layer_sizes) :
    (Network.build net.input_size net.output_size Hb).load_state_dict
      net.state_dict = .error .structureMismatch :=
  load_state_dict_mismatch net hv Hb hne

/-- Witness for C2: loading netEx's parameters into a model with hidden
sizes [3] instead of [2] fails with StructureMismatch. -/
theorem claim_C2_witness :
    netEx.valid = true ∧ [3] ≠ netEx.hidden_layer_sizes ∧
      (Network.build netEx.input_size netEx.output_size [3]).load_state_dict
        netEx.state_dict = .error .structureMismatch :=
  ⟨by decide, by decide, claim_C2 netEx (by decide) [3] (by decide)⟩

/-- C3: corrupt input handling — whenever a source cannot be parsed as a
Checkpoint, load raises CorruptArtifact and returns no model. -/
theorem claim_C3 (b : Blob) (h : deserialize b = none) :
    load b = .error .corruptArtifact := by
  simp only [load, h]

/-- Witness for C3 at the concrete unparsable source []. -/
theorem claim_C3_witness :
    deserialize ([] : Blob) = none ∧ load [] = .error .corruptArtifact :=
  ⟨rfl, claim_C3 [] rfl⟩

/-- C4: save sufficiency — the saved artifact deserializes to exactly the
three descriptor fields plus every parameter value of the model, and
rebuilding from those descriptor fields alone yields an architecturally
identical model (same fields, same parameter names and shapes). -/
theorem claim_C4 (net : Network) (hv : net.valid = true) :
    deserialize (save net) =
      some ⟨⟨net.input_size, net.output_size, net.hidden_layer_sizes⟩,
        net.state_dict⟩ ∧
    (Network.build net.input_size net.output_size
        net.hidden_layer_sizes).input_size = net.input_size ∧
    (Network.build net.input_size net.output_size
        net.hidden_layer_sizes).output_size = net.output_size ∧
    (Network.build net.input_size net.output_size
        net.hidden_layer_sizes).hidden_layer_sizes = net.hidden_layer_sizes ∧
    shapesOf (Network.build net.input_size net.output_size
        net.hidden_layer_sizes).state_dict = shapesOf net.state_dict := by
  obtain ⟨hn, hm, hH, hpos, _⟩ := valid_parts net hv
  have hbuildv := build_valid _ _ _ hn hm hH hpos
  refine ⟨deserialize_serialize _, rfl, rfl, rfl, ?_⟩
  rw [shapesOf_state_dict _ hbuildv, shapesOf_state_dict net hv]
  rfl

/-- Witness for C4 at the concrete valid model netEx. -/
theorem claim_C4_witness :
    netEx.valid = true ∧
      (deserialize (save netEx) =
        some ⟨⟨netEx.input_size, netEx.output_size, netEx.hidden_layer_sizes⟩,
          netEx.state_dict⟩ ∧
      (Network.build netEx.input_size netEx.output_size
          netEx.hidden_layer_sizes).input_size = netEx.input_size ∧
      (Network.build netEx.input_size netEx.output_size
          netEx.hidden_layer_sizes).output_size = netEx.output_size ∧
      (Network.build netEx.input_size netEx.output_size
          netEx.hidden_layer_sizes).hidden_layer_sizes = netEx.hidden_layer_sizes ∧
      shapesOf (Network.build netEx.input_size netEx.output_size
          netEx.hidden_layer_sizes).state_dict = shapesOf netEx.state_dict) :=
  ⟨by decide, claim_C4 netEx (by decide)⟩

/-- C5: load algorithm steps — for every source produced by save, load
first deserializes exactly the saved Checkpoint, and its result is the
descriptor-built model with the stored ParameterSet assigned via
load_state_dict. -/
theorem claim_C5 (net : Network) :
    deserialize (save net) =
      some ⟨⟨net.input_size, net.output_size, net.hidden_layer_sizes⟩,
        net.state_dict⟩ ∧
    load (save net) =
      (Network.build net.input_size net.output_size
        net.hidden_layer_sizes).load_state_dict net.state_dict := by
  have hdes : deserialize (save net) =
      some ⟨⟨net.input_size, net.output_size, net.hidden_layer_sizes⟩,
        net.state_dict⟩ :=
    deserialize_serialize _
  exact ⟨hdes, by simp only [load, hdes]⟩

/-- C6: dimension-chain invariant — in the checkpoint written by save from
a valid model, consecutive weight matrices chain (columns of each equal
rows of the previous), the first matrix has input_size columns, and the
last matrix has output_size rows. -/
theorem claim_C6 (net : Network) (hv : net.valid = true) :
    ∃ c, deserialize (save net) = some c ∧
      chainOk net.input_size net.output_size (weightShapes c.params) = true := by
  refine ⟨_, deserialize_serialize _, ?_⟩
  show chainOk net.input_size net.output_size (weightShapes net.state_dict) = true
  rw [weightShapes_state_dict net hv]
  exact chainOk_hiddenWS net.hidden_layer_sizes net.input_size net.output_size

/-- Witness for C6 at the concrete valid model netEx. -/
theorem claim_C6_witness :
    netEx.valid = true ∧
      ∃ c, deserialize (save netEx) = some c ∧
        chainOk netEx.input_size netEx.output_size (weightShapes c.params) = true :=
  ⟨by decide, claim_C6 netEx (by decide)⟩

/-- C7: example — saving the model built with input_size 784,
output_size 10 and hidden sizes [512, 256, 128] and loading it back yields
that same model, whose descriptor fields are (784, 10, [512, 256, 128]) and
whose first hidden layer's weight matrix has shape (512, 784). -/
theorem claim_C7 :
    load (save net784) = .ok net784 ∧
    net784.input_size = 784 ∧ net784.output_size = 10 ∧
    net784.hidden_layer_sizes = [512, 256, 128] ∧
    (net784.hidden_layers.headD ⟨[], []⟩).weight.length = 512 ∧
    ((net784.hidden_layers.headD ⟨[], []⟩).weight.headD []).length = 784 := by
  refine ⟨?_, rfl, rfl, rfl, ?_, ?_⟩
  · exact load_save net784 (build_valid 784 10 [512, 256, 128]
      (by decide) (by decide) (by decide) (by decide))
  · show (List.replicate 512 (List.replicate 784 (0 : ℚ))).length = 512
    exact List.length_replicate _ _
  · show ((List.replicate 512 (List.replicate 784 (0 : ℚ))).headD []).length = 784
    rw [show (512 : Nat) = 511 + 1 from rfl, List.replicate_succ, List.headD_cons]
    exact List.length_replicate _ _

/-- C8: descriptor-path safety — loading a checkpoint produced by save
through the descriptor-driven reconstruction path never raises
StructureMismatch. -/
theorem claim_C8 (net : Network) (hv : net.valid = true) :
    load (save net) ≠ .error .structureMismatch := by
  rw [load_save net hv]
  intro h
  exact Except.noConfusion h

/-- Witness for C8 at the concrete valid model netEx. -/
theorem claim_C8_witness :
    netEx.valid = true ∧ load (save netEx) ≠ .error .structureMismatch :=
  ⟨by decide, claim_C8 netEx (by decide)⟩

/-- Counterexample to C9 as stated: a destination already holding a
written checkpoint is overwritten by a later save to the same destination
— the step relation does perform an update-in-place on the stored blob. -/
theorem claim_C9_counterexample :
    ([("k", ([] : Blob))].lookup "k" = some []) ∧
      (execOps [("k", [])] [Op.saveOp "k" netEx]).lookup "k"
        = some (save netEx) ∧
      save netEx ≠ [] := by
  refine ⟨by decide, by decide, by decide⟩

/-- C9 (amended): a checkpoint written to storage is preserved by every
sequence of save and load operations that contains no later save to its
destination — loads never modify storage and a save affects only its own
destination; write-once is not enforced by the operations themselves,
since a save to an already-written destination replaces the stored blob. -/
theorem claim_C9 (ops : List Op) (d : String) (b : Blob) :
    ∀ s : Store, s.lookup d = some b → (∀ net, Op.saveOp d net ∉ ops) →
      (execOps s ops).lookup d = some b := by
  induction ops with
  | nil =>
    intro s h _
    exact h
  | cons op rest ih =>
    intro s h hno
    show (execOps (execOp s op) rest).lookup d = some b
    refine ih (execOp s op) ?_
      (fun net hmem => hno net (List.mem_cons_of_mem _ hmem))
    cases op with
    | loadOp src => exact h
    | saveOp d2 net2 =>
      have hne : d ≠ d2 := fun hdd =>
        hno net2 (by rw [hdd]; exact List.mem_cons_self _ _)
      have hdd : (d == d2) = false := by
        cases hbd : d == d2
        · rfl
        · exact absurd (eq_of_beq hbd) hne
      show ((d2, save net2) :: s).lookup d = some b
      simp [List.lookup, hdd, h]

/-- Witness for C9 at concrete inputs: a stored checkpoint survives a load
and a save addressed to a different destination. -/
theorem claim_C9_witness :
    ([("k", ([5] : Blob))].lookup "k" = some [5]) ∧
      (execOps [("k", [5])] [Op.loadOp "k", Op.saveOp "x" netEx]).lookup "k"
        = some [5] := by
  refine ⟨by decide, ?_⟩
  refine claim_C9 [Op.loadOp "k", Op.saveOp "x" netEx] "k" [5]
    [("k", [5])] (by decide) ?_
  intro net hmem
  simp only [List.mem_cons, List.not_mem_nil, or_false] at hmem
  rcases hmem with h1 | h2
  · exact Op.noConfusion h1
  · injection h2 with hd hn
    exact absurd hd (by decide)

/-- C10: save frame property — a save call returns the model unchanged
(all architecture fields and parameter values intact), writes its own
destination, and leaves the stored blob of every other destination
untouched. -/
theorem claim_C10 (net : Network) (d : String) (s : Store) :
    (saveTo net d s).1 = net ∧
      (saveTo net d s).2.lookup d = some (save net) ∧
      ∀ d2, d2 ≠ d → (saveTo net d s).2.lookup d2 = s.lookup d2 := by
  refine ⟨rfl, ?_, ?_⟩
  · show ((d, save net) :: s).lookup d = some (save net)
    simp [List.lookup]
  · intro d2 hne
    have hdd : (d2 == d) = false := by
      cases hbd : d2 == d
      · rfl
      · exact absurd (eq_of_beq hbd) hne
    show ((d, save net) :: s).lookup d2 = s.lookup d2
    simp [List.lookup, hdd]

/-- Witness for C10: saving netEx to destination "a" leaves the model
unchanged, writes "a", and leaves the unrelated destination "b" untouched. -/
theorem claim_C10_witness :
    (saveTo netEx "a" [("b", [])]).1 = netEx ∧
      (saveTo netEx "a" [("b", [])]).2.lookup "a" = some (save netEx) ∧
      (saveTo netEx "a" [("b", [])]).2.lookup "b" = some [] := by
  refine ⟨(claim_C10 netEx "a" [("b", [])]).1,
    (claim_C10 netEx "a" [("b", [])]).2.1, ?_⟩
  have h := (claim_C10 netEx "a" [("b", [])]).2.2 "b" (by decide)
  rw [h]
  decide
